import Mathlib

/-!
Verification of the XML-to-YOLO annotation conversion pipeline (`src/main.py`).

The program converts Pascal-VOC-style XML annotation files into YOLO `.txt`
label files: it scans three partition directories (`train`, `val`, `test`)
for XML files, accumulates the set of class names (lowercased, stripped),
sorts them into a class list, converts every bounding box into relative
center/size coordinates, writes one `.txt` per XML file, and finally writes
a `data.yaml` manifest.

The embedding below models:
  * an XML annotation file as a parse result (`XMLFile.tree = none` models an
    `ET.ParseError` raised by `ET.parse`); element lookups that may return
    `None` in Python are modelled with `Option`;
  * Python float arithmetic on these small integer inputs as exact rational
    arithmetic (the formulas at `main.py:86-89` are the object of the
    round-trip and range claims, which are stated over exact rationals);
  * Python's `str.strip().lower()` as character-level trimming and ASCII
    lowercasing, and Python's `sorted` on strings as sorting by the
    code-point lexicographic order `strLe`;
  * exceptions: `ET.ParseError` is caught by the `except` clauses in
    `parse_xml_annotations` / `convert_xml_to_yolo` (outcome `parseError`),
    while `AttributeError` (missing `size`/`bndbox` sub-elements) and
    `ZeroDivisionError` (zero image dimension) are *not* caught and abort
    the whole run (outcome `crash`).
-/

/-- Code-point comparison of character lists: the strict lexicographic order
that Python's `sorted` uses on strings. -/
def lexLtB : List Char → List Char → Bool
  | [], [] => false
  | [], _ :: _ => true
  | _ :: _, [] => false
  | a :: as, b :: bs =>
    if a.toNat < b.toNat then true
    else if b.toNat < a.toNat then false
    else lexLtB as bs

/-- `strLe a b`: string `a` sorts no later than `b` (code-point order). -/
def strLe (a b : String) : Prop := lexLtB b.data a.data = false

instance : DecidableRel strLe := fun _ _ => instDecidableEqBool _ _

/-- Remove leading and trailing whitespace characters, as `str.strip()`. -/
def trimChars (l : List Char) : List Char :=
  ((l.dropWhile Char.isWhitespace).reverse.dropWhile Char.isWhitespace).reverse

/-- `name_tag.text.strip().lower()` (`main.py:31` and `main.py:71`):
strip surrounding whitespace, then lowercase. -/
def stripLower (s : String) : String :=
  String.mk ((trimChars s.data).map Char.toLower)

/-- The `<bndbox>` element: each coordinate sub-element may be missing
(`bndbox.find('xmin')` returning `None`). -/
structure RawBox where
  xmin : Option Int
  ymin : Option Int
  xmax : Option Int
  ymax : Option Int
deriving DecidableEq

/-- One `<object>` element. `name = none` models a missing `<name>` tag or a
`<name>` tag whose text is `None`; `name = some s` a `<name>` tag with
text `s` (the empty string is falsy in Python and is also skipped). -/
structure RawObj where
  name : Option String
  bndbox : Option RawBox
deriving DecidableEq

/-- A successfully parsed annotation tree. `width`/`height` are the parsed
`size/width` and `size/height` sub-elements (`none` = element missing). -/
structure XMLTree where
  width : Option Int
  height : Option Int
  objects : List RawObj
deriving DecidableEq

/-- One discovered `.xml` file: its base name, its parse result
(`none` = `ET.ParseError`), and whether a sibling `<stem>.jpg` exists. -/
structure XMLFile where
  stem : String
  tree : Option XMLTree
  hasImage : Bool
deriving DecidableEq

/-- One output line of a `.txt` label file: class id and the four relative
geometric values (`main.py:91`). -/
structure EncodedBox where
  class_id : Nat
  x_center : ℚ
  y_center : ℚ
  width : ℚ
  height : ℚ
deriving DecidableEq

/-- The geometric conversion of `main.py:86-89`, over exact rationals. -/
def encodeObjBox (class_id : Nat) (img_width img_height xmin ymin xmax ymax : Int) :
    EncodedBox where
  class_id := class_id
  x_center := ((xmin : ℚ) + (xmax : ℚ)) / 2 / (img_width : ℚ)
  y_center := ((ymin : ℚ) + (ymax : ℚ)) / 2 / (img_height : ℚ)
  width := ((xmax : ℚ) - (xmin : ℚ)) / (img_width : ℚ)
  height := ((ymax : ℚ) - (ymin : ℚ)) / (img_height : ℚ)

/-- Fate of one `.xml` file in the encoding phase (`main.py:58-100`):
`parseError` = `ET.ParseError`, caught, file skipped, loop continues;
`crash` = uncaught exception (`AttributeError` / `ZeroDivisionError`),
aborting the whole run; `written lines` = the sibling `.txt` file is
written with the given lines. -/
inductive FileOutcome where
  | parseError : FileOutcome
  | crash : FileOutcome
  | written : List EncodedBox → FileOutcome
deriving DecidableEq

/-- The per-object body of the loop at `main.py:68-91`. `Except.error ()`
models an uncaught exception; `Except.ok none` an object skipped by
`continue`; `Except.ok (some e)` an appended annotation line. -/
def convertObj (classes_dict : List (String × Nat)) (img_width img_height : Int)
    (o : RawObj) : Except Unit (Option EncodedBox) :=
  match o.name with
  | none => Except.ok none
  | some s =>
    if s = "" then Except.ok none
    else
      match List.lookup (stripLower s) classes_dict with
      | none => Except.ok none
      | some class_id =>
        match o.bndbox with
        | none => Except.error ()
        | some b =>
          match b.xmin, b.ymin, b.xmax, b.ymax with
          | some x0, some y0, some x1, some y1 =>
            if img_width = 0 then Except.error ()
            else if img_height = 0 then Except.error ()
            else Except.ok (some (encodeObjBox class_id img_width img_height x0 y0 x1 y1))
          | _, _, _, _ => Except.error ()

/-- The object loop of `main.py:68-91` over the whole `<object>` list,
collecting the `yolo_annotations` list. -/
def convertObjs (classes_dict : List (String × Nat)) (img_width img_height : Int) :
    List RawObj → Except Unit (List EncodedBox)
  | [] => Except.ok []
  | o :: os =>
    match convertObj classes_dict img_width img_height o with
    | Except.error e => Except.error e
    | Except.ok r =>
      match convertObjs classes_dict img_width img_height os with
      | Except.error e => Except.error e
      | Except.ok rs =>
        match r with
        | none => Except.ok rs
        | some e => Except.ok (e :: rs)

/-- Processing of one `.xml` file by `convert_xml_to_yolo` (`main.py:58-100`). -/
def convertFile (classes_dict : List (String × Nat)) (f : XMLFile) : FileOutcome :=
  match f.tree with
  | none => FileOutcome.parseError
  | some t =>
    match t.width, t.height with
    | some w, some h =>
      match convertObjs classes_dict w h t.objects with
      | Except.error _ => FileOutcome.crash
      | Except.ok ls => FileOutcome.written ls
    | _, _ => FileOutcome.crash

/-- `convert_xml_to_yolo` (`main.py:48-100`) over the discovered file list of
one partition. Returns the per-file outcomes (truncated at an uncaught
exception) and whether the loop aborted with an uncaught exception. -/
def convert_xml_to_yolo (classes_dict : List (String × Nat)) :
    List XMLFile → List FileOutcome × Bool
  | [] => ([], false)
  | f :: rest =>
    match convertFile classes_dict f with
    | FileOutcome.crash => ([FileOutcome.crash], true)
    | FileOutcome.parseError =>
      let r := convert_xml_to_yolo classes_dict rest
      (FileOutcome.parseError :: r.1, r.2)
    | FileOutcome.written ls =>
      let r := convert_xml_to_yolo classes_dict rest
      (FileOutcome.written ls :: r.1, r.2)

/-- The class names contributed by one file in `parse_xml_annotations`
(`main.py:23-35`): every `<object>` whose `<name>` has truthy text,
stripped and lowercased; a file that fails to parse contributes none. -/
def fileLabels (f : XMLFile) : List String :=
  match f.tree with
  | none => []
  | some t =>
    t.objects.filterMap fun o =>
      match o.name with
      | none => none
      | some s => if s = "" then none else some (stripLower s)

/-- `parse_xml_annotations` (`main.py:7-46`) on one partition's file list:
the class names added to `classes_set` (in discovery order) and the
returned `image_paths` list (files that parsed and have a sibling `.jpg`). -/
def parse_xml_annotations (files : List XMLFile) : List String × List String :=
  (files.flatMap fileLabels,
   files.filterMap fun f =>
     if f.tree.isSome && f.hasImage then some (f.stem ++ ".jpg") else none)

/-- All class names accumulated into `classes_set` across the partitions
(`main.py:192-197`). -/
def allLabels (parts : List (List XMLFile)) : List String :=
  parts.flatMap fun p => (parse_xml_annotations p).1

/-- `classes = sorted(list(classes_set))` (`main.py:200`): the distinct
labels in lexicographic order. The set is modelled by `dedup`; sorting by
insertion sort with the code-point order (Python's sort is extensionally
determined on the duplicate-free list by the order alone). -/
def classesOf (parts : List (List XMLFile)) : List String :=
  List.insertionSort strLe (allLabels parts).dedup

/-- `classes_dict = {class_name: idx for idx, class_name in enumerate(classes)}`
(`main.py:201`). It is only ever applied to the duplicate-free sorted
`classes` list. -/
def classesDict (classes : List String) : List (String × Nat) :=
  (classes.enum).map fun p => (p.2, p.1)

/-- The `data.yaml` contents produced by `create_data_yaml`
(`main.py:102-119`). -/
structure Manifest where
  path : String
  train : String
  val : String
  test : String
  names : List String
deriving DecidableEq

/-- `create_data_yaml` (`main.py:102-119`). -/
def create_data_yaml (base_dir : String) (classes : List String) : Manifest :=
  { path := base_dir, train := "train", val := "val", test := "test", names := classes }

/-- The encoding loop of `main.py:210-214` over the (existing) partitions.
An uncaught exception in one partition propagates out of `main`, so later
partitions are not processed. -/
def encodeAll (classes_dict : List (String × Nat)) :
    List (List XMLFile) → List (List FileOutcome) × Bool
  | [] => ([], false)
  | p :: ps =>
    let r := convert_xml_to_yolo classes_dict p
    if r.2 then ([r.1], true)
    else
      let rs := encodeAll classes_dict ps
      (r.1 :: rs.1, rs.2)

/-- The observable result of `main` (`main.py:121-219`), up to the external
training call: the sorted class list, the encoding outcomes per partition
(`none` when the pipeline aborted on an empty vocabulary, before any
encoding), and the manifest (`none` when it was never written). -/
structure PipelineOut where
  classes : List String
  converted : Option (List (List FileOutcome))
  manifest : Option Manifest
deriving DecidableEq

/-- The conversion pipeline of `main` (`main.py:176-219`): build the
vocabulary over all partitions, abort if it is empty (`main.py:205-207`),
otherwise encode every partition and finally write `data.yaml`.
`parts` is the list of file lists of the partition directories that exist
(`main.py:192-196` skips missing ones); `base_dir` is the dataset root. -/
def mainPipeline (base_dir : String) (parts : List (List XMLFile)) : PipelineOut :=
  let classes := classesOf parts
  let classes_dict := classesDict classes
  if classes_dict = [] then
    { classes := classes, converted := none, manifest := none }
  else
    let r := encodeAll classes_dict parts
    { classes := classes
      converted := some r.1
      manifest := if r.2 then none else some (create_data_yaml base_dir classes) }

/-- The number of distinct labels lexicographically strictly below `c` in
`labels`: the lexicographic rank used to state the vocabulary claims. -/
def lexRank (c : String) (labels : List String) : Nat :=
  (labels.filter fun x => lexLtB x.data c.data).length

/-- Decoding of an `EncodedBox` back to absolute pixel coordinates, as named
by the round-trip property of the specification: rescale the relative
center/size values by the image dimensions. -/
def decodeBox (img_width img_height : Int) (e : EncodedBox) : ℚ × ℚ × ℚ × ℚ :=
  ((e.x_center - e.width / 2) * (img_width : ℚ),
   (e.y_center - e.height / 2) * (img_height : ℚ),
   (e.x_center + e.width / 2) * (img_width : ℚ),
   (e.y_center + e.height / 2) * (img_height : ℚ))

/-- The line an object contributes to its file's output, if any: `none` when
the object is skipped by a `continue` (or would crash). -/
def retainedLine (classes_dict : List (String × Nat)) (img_width img_height : Int)
    (o : RawObj) : Option EncodedBox :=
  match convertObj classes_dict img_width img_height o with
  | Except.error _ => none
  | Except.ok r => r

/-- Two discovered files with the same name and the same parsed content,
possibly differing in whether a sibling `.jpg` image exists. -/
def sameXml (f g : XMLFile) : Prop := f.stem = g.stem ∧ f.tree = g.tree

/-! ### Concrete annotation files used as test inputs -/

/-- Scenario A: `width=100`, `height=200`, one object labeled `"Car"` with
box `(10,20,50,80)`, sibling image present. -/
def fileA : XMLFile :=
  { stem := "a"
    tree := some
      { width := some 100
        height := some 200
        objects := [{ name := some "Car"
                      bndbox := some { xmin := some 10, ymin := some 20,
                                       xmax := some 50, ymax := some 80 } }] }
    hasImage := true }

/-- Like `fileA` but declaring the negative image width `-100`. -/
def fileNegW : XMLFile :=
  { stem := "n"
    tree := some
      { width := some (-100)
        height := some 200
        objects := [{ name := some "Car"
                      bndbox := some { xmin := some 10, ymin := some 20,
                                       xmax := some 50, ymax := some 80 } }] }
    hasImage := true }

/-- A parsed file whose `<size>` has no `width` sub-element. -/
def fileNoW : XMLFile :=
  { stem := "m"
    tree := some { width := none, height := some 200, objects := [] }
    hasImage := true }

/-- A file whose single object has a known label but a `<bndbox>` with no
`xmin` sub-element. -/
def fileBadBox : XMLFile :=
  { stem := "bb"
    tree := some
      { width := some 100
        height := some 100
        objects := [{ name := some "car"
                      bndbox := some { xmin := none, ymin := some 20,
                                       xmax := some 50, ymax := some 80 } }] }
    hasImage := false }

/-- A file that fails to parse (`ET.ParseError`). -/
def fileMalformed : XMLFile :=
  { stem := "bad", tree := none, hasImage := false }

/-- One object in the vocabulary (`"Car"`, box `(10,20,50,80)`). -/
def objCar : RawObj :=
  { name := some "Car"
    bndbox := some { xmin := some 10, ymin := some 20,
                     xmax := some 50, ymax := some 80 } }

/-- An object whose label is not in the dictionary (and which even lacks a
`<bndbox>`, showing the skip happens before the box is read). -/
def objDogNoBox : RawObj := { name := some "dog", bndbox := none }

/-- A file holding `objCar` followed by the unknown-label `objDogNoBox`. -/
def fileUnknown : XMLFile :=
  { stem := "u"
    tree := some { width := some 100, height := some 200,
                   objects := [objCar, objDogNoBox] }
    hasImage := false }

/-- `fileA` with no sibling image. -/
def fileANoImg : XMLFile :=
  { stem := "a", tree := fileA.tree, hasImage := false }


/-! ### Order lemmas for the code-point comparison -/

theorem char_eq_of_toNat_eq {a b : Char} (h : a.toNat = b.toNat) : a = b :=
  Char.ext (UInt32.ext h)

theorem lexLtB_irrefl : ∀ l : List Char, lexLtB l l = false := by
  intro l
  induction l with
  | nil => rfl
  | cons a as ih => simp [lexLtB, ih]

theorem lexLtB_asymm : ∀ l₁ l₂ : List Char, lexLtB l₁ l₂ = true → lexLtB l₂ l₁ = false := by
  intro l₁
  induction l₁ with
  | nil =>
    intro l₂ h
    cases l₂ with
    | nil => exact absurd h (by simp [lexLtB])
    | cons b bs => rfl
  | cons a as ih =>
    intro l₂ h
    cases l₂ with
    | nil => exact absurd h (by simp [lexLtB])
    | cons b bs =>
      by_cases h1 : a.toNat < b.toNat
      · have h2 : ¬ b.toNat < a.toNat := by omega
        simp [lexLtB, h1, h2]
      · by_cases h2 : b.toNat < a.toNat
        · simp [lexLtB, h1, h2] at h
        · simp [lexLtB, h1, h2] at h ⊢
          exact ih bs h

theorem lexLtB_trans : ∀ l₁ l₂ l₃ : List Char,
    lexLtB l₁ l₂ = true → lexLtB l₂ l₃ = true → lexLtB l₁ l₃ = true := by
  intro l₁
  induction l₁ with
  | nil =>
    intro l₂ l₃ h12 h23
    cases l₂ with
    | nil => exact absurd h12 (by simp [lexLtB])
    | cons b bs =>
      cases l₃ with
      | nil => exact absurd h23 (by simp [lexLtB])
      | cons c cs => rfl
  | cons a as ih =>
    intro l₂ l₃ h12 h23
    cases l₂ with
    | nil => exact absurd h12 (by simp [lexLtB])
    | cons b bs =>
      cases l₃ with
      | nil => exact absurd h23 (by simp [lexLtB])
      | cons c cs =>
        by_cases hab : a.toNat < b.toNat
        · by_cases hbc : b.toNat < c.toNat
          · have hac : a.toNat < c.toNat := by omega
            simp [lexLtB, hac]
          · by_cases hcb : c.toNat < b.toNat
            · simp [lexLtB, hbc, hcb] at h23
            · have hac : a.toNat < c.toNat := by omega
              simp [lexLtB, hac]
        · by_cases hba : b.toNat < a.toNat
          · simp [lexLtB, hab, hba] at h12
          · simp [lexLtB, hab, hba] at h12
            by_cases hbc : b.toNat < c.toNat
            · have hac : a.toNat < c.toNat := by omega
              simp [lexLtB, hac]
            · by_cases hcb : c.toNat < b.toNat
              · simp [lexLtB, hbc, hcb] at h23
              · simp [lexLtB, hbc, hcb] at h23
                have hac1 : ¬ a.toNat < c.toNat := by omega
                have hac2 : ¬ c.toNat < a.toNat := by omega
                simp [lexLtB, hac1, hac2]
                exact ih bs cs h12 h23

theorem lexLtB_conn : ∀ l₁ l₂ : List Char,
    lexLtB l₁ l₂ = false → lexLtB l₂ l₁ = false → l₁ = l₂ := by
  intro l₁
  induction l₁ with
  | nil =>
    intro l₂ h12 h21
    cases l₂ with
    | nil => rfl
    | cons b bs => exact absurd h12 (by simp [lexLtB])
  | cons a as ih =>
    intro l₂ h12 h21
    cases l₂ with
    | nil => exact absurd h21 (by simp [lexLtB])
    | cons b bs =>
      by_cases h1 : a.toNat < b.toNat
      · simp [lexLtB, h1] at h12
      · by_cases h2 : b.toNat < a.toNat
        · simp [lexLtB, h2] at h21
        · simp [lexLtB, h1, h2] at h12 h21
          have hab : a = b := char_eq_of_toNat_eq (by omega)
          rw [hab, ih bs h12 h21]

theorem string_eq_of_data_eq {a b : String} (h : a.data = b.data) : a = b := by
  cases a
  cases b
  exact congrArg String.mk h

instance : IsTotal String strLe where
  total a b := by
    unfold strLe
    cases h : lexLtB a.data b.data with
    | false => exact Or.inr rfl
    | true => exact Or.inl (lexLtB_asymm _ _ h)

instance : IsTrans String strLe where
  trans a b c hab hbc := by
    unfold strLe at hab hbc ⊢
    cases h : lexLtB c.data a.data with
    | false => rfl
    | true =>
      exfalso
      cases h2 : lexLtB a.data b.data with
      | true =>
        have hcb : lexLtB c.data b.data = true := lexLtB_trans _ _ _ h h2
        simp [hcb] at hbc
      | false =>
        have hd : a.data = b.data := lexLtB_conn _ _ h2 hab
        rw [hd] at h
        simp [h] at hbc

instance : IsAntisymm String strLe where
  antisymm a b hab hba :=
    string_eq_of_data_eq (lexLtB_conn _ _ hba hab)

/-- The `classes` list is sorted. -/
theorem classesOf_sorted (parts : List (List XMLFile)) :
    List.Sorted strLe (classesOf parts) :=
  List.sorted_insertionSort strLe _

/-- The `classes` list has no duplicates. -/
theorem classesOf_nodup (parts : List (List XMLFile)) :
    (classesOf parts).Nodup :=
  (List.perm_insertionSort strLe _).nodup_iff.mpr (List.nodup_dedup _)

/-! ### The class dictionary: lookup, index, rank -/

theorem lookup_enumFrom_swap (V : List String) : ∀ (n : Nat) (c : String),
    List.lookup c ((List.enumFrom n V).map fun p => (p.2, p.1)) =
      if c ∈ V then some (n + List.indexOf c V) else none := by
  induction V with
  | nil => intro n c; simp
  | cons v W ih =>
    intro n c
    by_cases hcv : c = v
    · subst hcv
      simp [List.lookup, List.indexOf_cons]
    · have hbeq : (c == v) = false := beq_false_of_ne hcv
      have hbeq2 : (v == c) = false := beq_false_of_ne (Ne.symm hcv)
      simp only [List.enumFrom, List.map_cons, List.lookup, hbeq, ih (n + 1) c,
        List.indexOf_cons, hbeq2]
      by_cases hm : c ∈ W
      · simp [hm, hcv]
        omega
      · simp [hm, hcv]

theorem lookup_classesDict (V : List String) (c : String) :
    List.lookup c (classesDict V) =
      if c ∈ V then some (List.indexOf c V) else none := by
  have h := lookup_enumFrom_swap V 0 c
  simpa [classesDict, List.enum] using h

/-- In a sorted duplicate-free list, the index of an element is the number of
elements strictly below it. -/
theorem indexOf_sorted_eq_lexRank : ∀ (V : List String),
    List.Sorted strLe V → V.Nodup → ∀ c ∈ V, List.indexOf c V = lexRank c V := by
  intro V
  induction V with
  | nil => intro _ _ c hc; simp at hc
  | cons v W ih =>
    intro hs hn c hc
    have hvW : ∀ x ∈ W, strLe v x := (List.sorted_cons.mp hs).1
    by_cases hcv : c = v
    · subst hcv
      have h0 : List.indexOf c (c :: W) = 0 := by simp [List.indexOf_cons]
      rw [h0, lexRank]
      have : List.filter (fun x => lexLtB x.data c.data) (c :: W) = [] := by
        rw [List.filter_eq_nil]
        intro a ha
        rcases List.mem_cons.mp ha with h | h
        · subst h; simp [lexLtB_irrefl]
        · have := hvW a h
          unfold strLe at this
          simp [this]
      rw [this]
      rfl
    · have hcW : c ∈ W := by
        rcases List.mem_cons.mp hc with h | h
        · exact absurd h hcv
        · exact h
      have hbeq : (v == c) = false := beq_false_of_ne (Ne.symm hcv)
      have hlt : lexLtB v.data c.data = true := by
        cases h : lexLtB v.data c.data with
        | true => rfl
        | false =>
          exfalso
          have hle : strLe v c := hvW c hcW
          unfold strLe at hle
          exact hcv (Eq.symm (string_eq_of_data_eq (lexLtB_conn _ _ h hle)))
      have hfil : List.filter (fun x => lexLtB x.data c.data) (v :: W) =
          v :: List.filter (fun x => lexLtB x.data c.data) W := by
        simp [List.filter_cons, hlt]
      rw [lexRank, hfil]
      simp only [List.indexOf_cons, hbeq, cond_false, List.length_cons]
      have := ih (List.Sorted.of_cons hs) (List.Nodup.of_cons hn) c hcW
      rw [lexRank] at this
      omega

/-! ### Decomposition of the encoding phase -/

theorem mem_encodeAll (d : List (String × Nat)) (parts : List (List XMLFile))
    (po : List FileOutcome) (h : po ∈ (encodeAll d parts).1) :
    ∃ p ∈ parts, po = (convert_xml_to_yolo d p).1 := by
  induction parts with
  | nil => simp [encodeAll] at h
  | cons p ps ih =>
    by_cases hr : (convert_xml_to_yolo d p).2
    · simp [encodeAll, hr] at h
      exact ⟨p, List.mem_cons_self p ps, h⟩
    · simp [encodeAll, hr] at h
      rcases h with h | h
      · exact ⟨p, List.mem_cons_self p ps, h⟩
      · rcases ih h with ⟨q, hq, hpo⟩
        exact ⟨q, List.mem_cons_of_mem p hq, hpo⟩

theorem mem_convert_written (d : List (String × Nat)) (files : List XMLFile)
    (ls : List EncodedBox)
    (h : FileOutcome.written ls ∈ (convert_xml_to_yolo d files).1) :
    ∃ f ∈ files, convertFile d f = FileOutcome.written ls := by
  induction files with
  | nil => simp [convert_xml_to_yolo] at h
  | cons f fs ih =>
    cases hf : convertFile d f with
    | crash => simp [convert_xml_to_yolo, hf] at h
    | parseError =>
      simp only [convert_xml_to_yolo, hf, List.mem_cons] at h
      rcases h with h | h
      · exact absurd h (by simp)
      · rcases ih h with ⟨g, hg, hgw⟩
        exact ⟨g, List.mem_cons_of_mem f hg, hgw⟩
    | written ls' =>
      simp only [convert_xml_to_yolo, hf, List.mem_cons] at h
      rcases h with h | h
      · have : ls = ls' := by
          cases h
          rfl
        subst this
        exact ⟨f, List.mem_cons_self f fs, hf⟩
      · rcases ih h with ⟨g, hg, hgw⟩
        exact ⟨g, List.mem_cons_of_mem f hg, hgw⟩

theorem convertFile_written (d : List (String × Nat)) (f : XMLFile)
    (ls : List EncodedBox) (h : convertFile d f = FileOutcome.written ls) :
    ∃ t w hgt, f.tree = some t ∧ t.width = some w ∧ t.height = some hgt ∧
      convertObjs d w hgt t.objects = Except.ok ls := by
  cases ht : f.tree with
  | none => simp [convertFile, ht] at h
  | some t =>
    cases hw : t.width with
    | none => simp [convertFile, ht, hw] at h
    | some w =>
      cases hh : t.height with
      | none => simp [convertFile, ht, hw, hh] at h
      | some hgt =>
        cases hco : convertObjs d w hgt t.objects with
        | error e => simp [convertFile, ht, hw, hh, hco] at h
        | ok ls' =>
          simp only [convertFile, ht, hw, hh, hco] at h
          cases h
          exact ⟨t, w, hgt, rfl, hw, hh, hco⟩

theorem mem_convertObjs (d : List (String × Nat)) (w hgt : Int) :
    ∀ (os : List RawObj) (ls : List EncodedBox) (e : EncodedBox),
    convertObjs d w hgt os = Except.ok ls → e ∈ ls →
    ∃ o ∈ os, convertObj d w hgt o = Except.ok (some e) := by
  intro os
  induction os with
  | nil =>
    intro ls e hok he
    simp only [convertObjs] at hok
    cases hok
    simp at he
  | cons o os ih =>
    intro ls e hok he
    cases ho : convertObj d w hgt o with
    | error u => simp [convertObjs, ho] at hok
    | ok r =>
      cases hos : convertObjs d w hgt os with
      | error u => simp [convertObjs, ho, hos] at hok
      | ok rs =>
        cases r with
        | none =>
          simp only [convertObjs, ho, hos] at hok
          have hrs : rs = ls := by injection hok
          subst hrs
          rcases ih rs e hos he with ⟨o', ho', hw'⟩
          exact ⟨o', List.mem_cons_of_mem o ho', hw'⟩
        | some e' =>
          simp only [convertObjs, ho, hos] at hok
          have hls : e' :: rs = ls := by injection hok
          subst hls
          rcases List.mem_cons.mp he with h | h
          · subst h
            exact ⟨o, List.mem_cons_self o os, ho⟩
          · rcases ih rs e hos h with ⟨o', ho', hw'⟩
            exact ⟨o', List.mem_cons_of_mem o ho', hw'⟩

theorem convertObj_ok_some (d : List (String × Nat)) (w hgt : Int) (o : RawObj)
    (e : EncodedBox) (h : convertObj d w hgt o = Except.ok (some e)) :
    ∃ s, o.name = some s ∧ s ≠ "" ∧
      List.lookup (stripLower s) d = some e.class_id := by
  cases hn : o.name with
  | none => simp [convertObj, hn] at h
  | some s =>
    by_cases hs : s = ""
    · simp [convertObj, hn, hs] at h
    · cases hlk : List.lookup (stripLower s) d with
      | none => simp [convertObj, hn, hs, hlk] at h
      | some cid =>
        cases hb : o.bndbox with
        | none => simp [convertObj, hn, hs, hlk, hb] at h
        | some b =>
          cases hx0 : b.xmin with
          | none => simp [convertObj, hn, hs, hlk, hb, hx0] at h
          | some x0 =>
            cases hy0 : b.ymin with
            | none => simp [convertObj, hn, hs, hlk, hb, hx0, hy0] at h
            | some y0 =>
              cases hx1 : b.xmax with
              | none => simp [convertObj, hn, hs, hlk, hb, hx0, hy0, hx1] at h
              | some x1 =>
                cases hy1 : b.ymax with
                | none => simp [convertObj, hn, hs, hlk, hb, hx0, hy0, hx1, hy1] at h
                | some y1 =>
                  by_cases hw0 : w = 0
                  · simp [convertObj, hn, hs, hlk, hb, hx0, hy0, hx1, hy1, hw0] at h
                  · by_cases hh0 : hgt = 0
                    · simp [convertObj, hn, hs, hlk, hb, hx0, hy0, hx1, hy1,
                        hw0, hh0] at h
                    · simp [convertObj, hn, hs, hlk, hb, hx0, hy0, hx1, hy1,
                        hw0, hh0] at h
                      refine ⟨s, rfl, hs, ?_⟩
                      rw [hlk, ← h]
                      rfl

/-! ### C7: range of the encoded geometric values -/

/-- C7, counterexample: the claim asserts that `xmin < xmax`, `ymin < ymax`
and positive image dimensions alone put all four geometric values in
`[0,1]`. The box `(0,0,200,200)` in a `100×100` image satisfies every
stated hypothesis, yet its encoded relative width is `2`. -/
theorem c7_counterexample :
    (0 : Int) < 100 ∧ (0 : Int) < 200 ∧ (0 : Int) < 200 ∧
      ¬ (encodeObjBox 0 100 100 0 0 200 200).width ≤ 1 := by
  refine ⟨by norm_num, by norm_num, by norm_num, ?_⟩
  simp only [encodeObjBox]
  norm_num

/-- C7, amended: if in addition the box lies inside the image
(`0 ≤ xmin`, `xmax ≤ image_width`, `0 ≤ ymin`, `ymax ≤ image_height`),
then all four geometric values of the emitted `EncodedBox` lie in `[0,1]`. -/
theorem c7_amended_encoded_values_in_unit_interval (class_id : Nat)
    (w h x0 y0 x1 y1 : Int)
    (hw : 0 < w) (hh : 0 < h) (hx : x0 < x1) (hy : y0 < y1)
    (hx0 : 0 ≤ x0) (hx1 : x1 ≤ w) (hy0 : 0 ≤ y0) (hy1 : y1 ≤ h) :
    (0 ≤ (encodeObjBox class_id w h x0 y0 x1 y1).x_center ∧
      (encodeObjBox class_id w h x0 y0 x1 y1).x_center ≤ 1) ∧
    (0 ≤ (encodeObjBox class_id w h x0 y0 x1 y1).y_center ∧
      (encodeObjBox class_id w h x0 y0 x1 y1).y_center ≤ 1) ∧
    (0 ≤ (encodeObjBox class_id w h x0 y0 x1 y1).width ∧
      (encodeObjBox class_id w h x0 y0 x1 y1).width ≤ 1) ∧
    (0 ≤ (encodeObjBox class_id w h x0 y0 x1 y1).height ∧
      (encodeObjBox class_id w h x0 y0 x1 y1).height ≤ 1) := by
  have hwQ : (0 : ℚ) < (w : ℚ) := by exact_mod_cast hw
  have hhQ : (0 : ℚ) < (h : ℚ) := by exact_mod_cast hh
  have hxQ : ((x0 : ℚ)) < (x1 : ℚ) := by exact_mod_cast hx
  have hyQ : ((y0 : ℚ)) < (y1 : ℚ) := by exact_mod_cast hy
  have hx0Q : (0 : ℚ) ≤ (x0 : ℚ) := by exact_mod_cast hx0
  have hx1Q : ((x1 : ℚ)) ≤ (w : ℚ) := by exact_mod_cast hx1
  have hy0Q : (0 : ℚ) ≤ (y0 : ℚ) := by exact_mod_cast hy0
  have hy1Q : ((y1 : ℚ)) ≤ (h : ℚ) := by exact_mod_cast hy1
  simp only [encodeObjBox]
  refine ⟨⟨?_, ?_⟩, ⟨?_, ?_⟩, ⟨?_, ?_⟩, ⟨?_, ?_⟩⟩
  · rw [div_div]
    apply div_nonneg (by linarith) (by linarith)
  · rw [div_div, div_le_one (by linarith)]
    linarith
  · rw [div_div]
    apply div_nonneg (by linarith) (by linarith)
  · rw [div_div, div_le_one (by linarith)]
    linarith
  · apply div_nonneg (by linarith) (by linarith)
  · rw [div_le_one (by linarith)]
    linarith
  · apply div_nonneg (by linarith) (by linarith)
  · rw [div_le_one (by linarith)]
    linarith

/-- Witness for C7 (amended), at the Scenario A input. -/
theorem c7_amended_witness :
    (0 ≤ (encodeObjBox 0 100 200 10 20 50 80).x_center ∧
      (encodeObjBox 0 100 200 10 20 50 80).x_center ≤ 1) ∧
    (0 ≤ (encodeObjBox 0 100 200 10 20 50 80).y_center ∧
      (encodeObjBox 0 100 200 10 20 50 80).y_center ≤ 1) ∧
    (0 ≤ (encodeObjBox 0 100 200 10 20 50 80).width ∧
      (encodeObjBox 0 100 200 10 20 50 80).width ≤ 1) ∧
    (0 ≤ (encodeObjBox 0 100 200 10 20 50 80).height ∧
      (encodeObjBox 0 100 200 10 20 50 80).height ≤ 1) :=
  c7_amended_encoded_values_in_unit_interval 0 100 200 10 20 50 80
    (by decide) (by decide) (by decide) (by decide)
    (by decide) (by decide) (by decide) (by decide)

/-! ### C8: geometric round trip -/

/-- C8: for any box with `xmin < xmax`, `ymin < ymax` and positive image
dimensions, decoding the emitted relative box and rescaling by the image
dimensions recovers the original corners exactly, over exact rational
arithmetic. -/
theorem c8_roundtrip_geometry (class_id : Nat) (w h x0 y0 x1 y1 : Int)
    (hw : 0 < w) (hh : 0 < h) (hx : x0 < x1) (hy : y0 < y1) :
    decodeBox w h (encodeObjBox class_id w h x0 y0 x1 y1) =
      ((x0 : ℚ), (y0 : ℚ), (x1 : ℚ), (y1 : ℚ)) := by
  have hwQ : ((w : ℚ)) ≠ 0 := by
    have : (0 : ℚ) < (w : ℚ) := by exact_mod_cast hw
    linarith
  have hhQ : ((h : ℚ)) ≠ 0 := by
    have : (0 : ℚ) < (h : ℚ) := by exact_mod_cast hh
    linarith
  simp only [decodeBox, encodeObjBox, Prod.mk.injEq]
  refine ⟨?_, ?_, ?_, ?_⟩ <;> field_simp <;> ring

/-- Witness for C8, at the Scenario A input. -/
theorem c8_roundtrip_witness :
    decodeBox 100 200 (encodeObjBox 0 100 200 10 20 50 80) =
      ((10 : ℚ), (20 : ℚ), (50 : ℚ), (80 : ℚ)) :=
  c8_roundtrip_geometry 0 100 200 10 20 50 80
    (by decide) (by decide) (by decide) (by decide)

/-! ### C1: files with absent or non-positive size sub-elements -/

/-- C1, counterexample: `fileNegW` declares the non-positive image width
`-100`, yet the encoding phase does not treat it as an error: the file is
not skipped, an output file IS written for it (with out-of-range values),
so the claimed "skipped with a diagnostic, no output file is written" is
false on the code. -/
theorem c1_counterexample :
    (-100 : Int) ≤ 0 ∧
    convertFile [("car", 0)] fileNegW =
      FileOutcome.written [encodeObjBox 0 (-100) 200 10 20 50 80] ∧
    convert_xml_to_yolo [("car", 0)] [fileNegW] =
      ([FileOutcome.written [encodeObjBox 0 (-100) 200 10 20 50 80]], false) :=
  ⟨by decide, rfl, rfl⟩

/-- C1, amended: a file declaring a *negative* image dimension is not
treated as an error at all — its objects are converted and its output
file is written (processing continues normally); a file whose size
sub-elements are *absent* raises an uncaught error: no output is written
for it, but instead of continuing, the phase (and the run) aborts, so the
sibling files after it are not processed. -/
theorem c1_amended_size_handling
    (d : List (String × Nat)) (f g : XMLFile) (t u : XMLTree) (w h : Int)
    (ls : List EncodedBox) (rest : List XMLFile)
    (hf : f.tree = some t) (hw : t.width = some w) (hh : t.height = some h)
    (hneg : w < 0)
    (henc : convertObjs d w h t.objects = Except.ok ls)
    (hg : g.tree = some u) (hu : u.width = none) :
    convertFile d f = FileOutcome.written ls ∧
    convert_xml_to_yolo d (f :: rest) =
      (FileOutcome.written ls :: (convert_xml_to_yolo d rest).1,
        (convert_xml_to_yolo d rest).2) ∧
    convertFile d g = FileOutcome.crash ∧
    convert_xml_to_yolo d (g :: rest) = ([FileOutcome.crash], true) := by
  have h1 : convertFile d f = FileOutcome.written ls := by
    simp [convertFile, hf, hw, hh, henc]
  have h3 : convertFile d g = FileOutcome.crash := by
    cases hub : u.height <;> simp [convertFile, hg, hu, hub]
  refine ⟨h1, ?_, h3, ?_⟩
  · simp [convert_xml_to_yolo, h1]
  · simp [convert_xml_to_yolo, h3]

/-- Witness for C1 (amended): the negative-width file is written with
out-of-range values while the absent-width file aborts the phase. -/
theorem c1_amended_witness :
    convertFile [("car", 0)] fileNegW =
      FileOutcome.written [encodeObjBox 0 (-100) 200 10 20 50 80] ∧
    convert_xml_to_yolo [("car", 0)] [fileNegW, fileA] =
      (FileOutcome.written [encodeObjBox 0 (-100) 200 10 20 50 80] ::
        (convert_xml_to_yolo [("car", 0)] [fileA]).1,
        (convert_xml_to_yolo [("car", 0)] [fileA]).2) ∧
    convertFile [("car", 0)] fileNoW = FileOutcome.crash ∧
    convert_xml_to_yolo [("car", 0)] (fileNoW :: [fileA]) =
      ([FileOutcome.crash], true) :=
  c1_amended_size_handling [("car", 0)] fileNegW fileNoW _ _ (-100) 200
    [encodeObjBox 0 (-100) 200 10 20 50 80] [fileA]
    rfl rfl rfl (by decide) rfl rfl rfl

/-! ### C2: isolation of per-file failures -/

/-- C2, counterexample: `fileBadBox` has an object with a known label whose
`<bndbox>` lacks `xmin`. Processing `[fileBadBox, fileA]` aborts at the
first file with an uncaught error and never processes the sibling
`fileA` — even though `fileA` alone converts fine — so "a failure
converting one file never aborts processing of the sibling files" is
false on the code. -/
theorem c2_counterexample :
    convert_xml_to_yolo [("car", 0)] [fileBadBox, fileA] =
      ([FileOutcome.crash], true) ∧
    convert_xml_to_yolo [("car", 0)] [fileA] =
      ([FileOutcome.written [encodeObjBox 0 100 200 10 20 50 80]], false) :=
  ⟨rfl, rfl⟩

/-- C2, amended: an XML parse failure in one file is isolated in both
phases — the vocabulary scan contributes nothing for that file and
continues, and the encoding phase records `parseError` for it and
processes the remaining files unchanged; but a file that raises an
uncaught error in the encoding phase (missing size or bounding-box
sub-elements) aborts the phase, and the sibling files after it are not
processed. -/
theorem c2_amended_failure_isolation
    (d : List (String × Nat)) (f g : XMLFile) (rest vrest : List XMLFile)
    (hf : f.tree = none) (hg : convertFile d g = FileOutcome.crash) :
    (parse_xml_annotations (f :: vrest)).1 = (parse_xml_annotations vrest).1 ∧
    convert_xml_to_yolo d (f :: rest) =
      (FileOutcome.parseError :: (convert_xml_to_yolo d rest).1,
        (convert_xml_to_yolo d rest).2) ∧
    convert_xml_to_yolo d (g :: rest) = ([FileOutcome.crash], true) := by
  refine ⟨?_, ?_, ?_⟩
  · simp [parse_xml_annotations, fileLabels, hf]
  · simp [convert_xml_to_yolo, convertFile, hf]
  · simp [convert_xml_to_yolo, hg]

/-- Witness for C2 (amended): a malformed file is skipped with siblings
still processed; a missing-`xmin` file aborts the phase. -/
theorem c2_amended_witness :
    (parse_xml_annotations (fileMalformed :: [fileA])).1 =
      (parse_xml_annotations [fileA]).1 ∧
    convert_xml_to_yolo [("car", 0)] (fileMalformed :: [fileA]) =
      (FileOutcome.parseError :: (convert_xml_to_yolo [("car", 0)] [fileA]).1,
        (convert_xml_to_yolo [("car", 0)] [fileA]).2) ∧
    convert_xml_to_yolo [("car", 0)] (fileBadBox :: [fileA]) =
      ([FileOutcome.crash], true) :=
  c2_amended_failure_isolation [("car", 0)] fileMalformed fileBadBox
    [fileA] [fileA] rfl rfl

/-! ### C3: Scenario A -/

/-- C3: running the pipeline on a single partition holding only `fileA`
(width 100, height 200, one `"Car"` object with box `(10,20,50,80)`)
yields the vocabulary `["car"]`; the encoding phase emits exactly one
line, whose class index `0` is the lexicographic rank of `"car"` in the
vocabulary and whose geometric values are `x_center = 0.30`,
`y_center = 0.25`, `width = 0.40`, `height = 0.30`. -/
theorem c3_scenario_a :
    mainPipeline "data/archive" [[fileA]] =
      { classes := ["car"]
        converted := some [[FileOutcome.written
          [{ class_id := 0, x_center := 3/10, y_center := 1/4,
             width := 2/5, height := 3/10 }]]]
        manifest := some (create_data_yaml "data/archive" ["car"]) } ∧
    List.indexOf "car" ["car"] = lexRank "car" ["car"] := by
  refine ⟨?_, by decide⟩
  have h1 : mainPipeline "data/archive" [[fileA]] =
      { classes := ["car"]
        converted := some [[FileOutcome.written
          [encodeObjBox 0 100 200 10 20 50 80]]]
        manifest := some (create_data_yaml "data/archive" ["car"]) } := rfl
  rw [h1]
  simp only [PipelineOut.mk.injEq, Option.some.injEq, List.cons.injEq,
    FileOutcome.written.injEq, EncodedBox.mk.injEq, encodeObjBox,
    and_true, true_and]
  norm_num

/-! ### C4: empty vocabulary aborts the pipeline -/

/-- C4: if no labels at all are collected across the partitions, the
pipeline aborts before the encoding phase and before the manifest write:
no per-file output is produced and no manifest is created. -/
theorem c4_empty_vocab_aborts (base_dir : String) (parts : List (List XMLFile))
    (h : allLabels parts = []) :
    mainPipeline base_dir parts =
      { classes := [], converted := none, manifest := none } := by
  have hc : classesOf parts = [] := by
    rw [classesOf, h]
    rfl
  simp [mainPipeline, hc, classesDict]

/-- Witness for C4: a run over one malformed file and one empty partition. -/
theorem c4_empty_vocab_witness :
    mainPipeline "data/archive" [[fileMalformed], []] =
      { classes := [], converted := none, manifest := none } :=
  c4_empty_vocab_aborts "data/archive" [[fileMalformed], []] rfl

/-! ### C9: unknown labels at encode time -/

theorem convertObjs_skip (d : List (String × Nat)) (w hgt : Int) (o : RawObj)
    (ho : convertObj d w hgt o = Except.ok none) :
    ∀ pre post : List RawObj,
      convertObjs d w hgt (pre ++ o :: post) = convertObjs d w hgt (pre ++ post) := by
  intro pre
  induction pre with
  | nil =>
    intro post
    cases hpost : convertObjs d w hgt post <;>
      simp [convertObjs, ho, hpost]
  | cons p pre ih =>
    intro post
    cases hp : convertObj d w hgt p <;>
      simp [convertObjs, hp, ih post]

theorem convertObjs_ok_filterMap (d : List (String × Nat)) (w hgt : Int) :
    ∀ (os : List RawObj) (ls : List EncodedBox),
      convertObjs d w hgt os = Except.ok ls →
      ls = os.filterMap (retainedLine d w hgt) := by
  intro os
  induction os with
  | nil =>
    intro ls hok
    simp only [convertObjs] at hok
    cases hok
    rfl
  | cons o os ih =>
    intro ls hok
    cases ho : convertObj d w hgt o with
    | error u => simp [convertObjs, ho] at hok
    | ok r =>
      cases hos : convertObjs d w hgt os with
      | error u => simp [convertObjs, ho, hos] at hok
      | ok rs =>
        cases r with
        | none =>
          simp only [convertObjs, ho, hos] at hok
          have hrs : rs = ls := by injection hok
          subst hrs
          simp [List.filterMap_cons, retainedLine, ho, ih rs hos]
        | some e =>
          simp only [convertObjs, ho, hos] at hok
          have hls : e :: rs = ls := by injection hok
          subst hls
          simp [List.filterMap_cons, retainedLine, ho, ih rs hos]

/-- C9: an object whose normalized label is absent from the frozen
vocabulary is skipped while the rest of the file is processed exactly as
if that object were not there: the output file is still written, with one
line per retained object, in the source order of the objects. -/
theorem c9_unknown_label_skipped
    (d : List (String × Nat)) (w hgt : Int) (pre post : List RawObj) (o : RawObj)
    (s : String) (f : XMLFile) (t : XMLTree) (ls : List EncodedBox)
    (hname : o.name = some s) (hs : s ≠ "")
    (hlk : List.lookup (stripLower s) d = none)
    (hf : f.tree = some t) (hw : t.width = some w) (hh : t.height = some hgt)
    (hobjs : t.objects = pre ++ o :: post)
    (henc : convertObjs d w hgt (pre ++ post) = Except.ok ls) :
    convertObjs d w hgt (pre ++ o :: post) = Except.ok ls ∧
    convertFile d f = FileOutcome.written ls ∧
    ls = (pre ++ post).filterMap (retainedLine d w hgt) := by
  have ho : convertObj d w hgt o = Except.ok none := by
    simp [convertObj, hname, hs, hlk]
  have h1 : convertObjs d w hgt (pre ++ o :: post) = Except.ok ls := by
    rw [convertObjs_skip d w hgt o ho pre post, henc]
  refine ⟨h1, ?_, convertObjs_ok_filterMap d w hgt _ _ henc⟩
  simp [convertFile, hf, hw, hh, hobjs, h1]

/-- Witness for C9, on `fileUnknown` against the vocabulary `["car"]`. -/
theorem c9_unknown_label_witness :
    convertObjs [("car", 0)] 100 200 ([objCar] ++ objDogNoBox :: []) =
      Except.ok [encodeObjBox 0 100 200 10 20 50 80] ∧
    convertFile [("car", 0)] fileUnknown =
      FileOutcome.written [encodeObjBox 0 100 200 10 20 50 80] ∧
    [encodeObjBox 0 100 200 10 20 50 80] =
      ([objCar] ++ ([] : List RawObj)).filterMap (retainedLine [("car", 0)] 100 200) :=
  c9_unknown_label_skipped [("car", 0)] 100 200 [objCar] [] objDogNoBox
    "dog" fileUnknown _ [encodeObjBox 0 100 200 10 20 50 80]
    rfl (by decide) rfl rfl rfl rfl rfl rfl

/-! ### C6: order-independence of the vocabulary -/

theorem allLabels_eq_flatten (pts : List (List XMLFile)) :
    allLabels pts = pts.flatten.flatMap fileLabels := by
  induction pts with
  | nil => rfl
  | cons p ps ih =>
    simp [allLabels, parse_xml_annotations, List.flatten_cons,
      List.flatMap_append] at ih ⊢
    rw [ih]

/-- C6: two runs of the vocabulary-building phase that enumerate the same
multiset of annotation files in different orders produce the same sorted
class list and the same label-to-index dictionary. -/
theorem c6_vocabulary_deterministic (pts1 pts2 : List (List XMLFile))
    (h : pts1.flatten.Perm pts2.flatten) :
    classesOf pts1 = classesOf pts2 ∧
    classesDict (classesOf pts1) = classesDict (classesOf pts2) := by
  have hperm : (allLabels pts1).Perm (allLabels pts2) := by
    rw [allLabels_eq_flatten, allLabels_eq_flatten]
    exact h.flatMap_right fileLabels
  have hsort : (classesOf pts1).Perm (classesOf pts2) :=
    ((List.perm_insertionSort strLe _).trans hperm.dedup).trans
      (List.perm_insertionSort strLe _).symm
  have heq : classesOf pts1 = classesOf pts2 :=
    List.eq_of_perm_of_sorted hsort (classesOf_sorted pts1) (classesOf_sorted pts2)
  exact ⟨heq, congrArg classesDict heq⟩

/-- Witness for C6: the same two files distributed differently over the
partitions, enumerated in opposite orders. -/
theorem c6_vocabulary_witness :
    classesOf [[fileA], [fileMalformed]] = classesOf [[fileMalformed, fileA]] ∧
    classesDict (classesOf [[fileA], [fileMalformed]]) =
      classesDict (classesOf [[fileMalformed, fileA]]) :=
  c6_vocabulary_deterministic [[fileA], [fileMalformed]] [[fileMalformed, fileA]]
    (by decide)

/-! ### C10: presence of sibling images is irrelevant to the results -/

theorem fileLabels_congr {f g : XMLFile} (h : f.tree = g.tree) :
    fileLabels f = fileLabels g := by
  unfold fileLabels
  rw [h]

theorem convertFile_congr (d : List (String × Nat)) {f g : XMLFile}
    (h : f.tree = g.tree) : convertFile d f = convertFile d g := by
  unfold convertFile
  rw [h]

theorem parse_labels_congr {p q : List XMLFile}
    (h : List.Forall₂ sameXml p q) :
    (parse_xml_annotations p).1 = (parse_xml_annotations q).1 := by
  induction h with
  | nil => rfl
  | cons hfg _ ih =>
    simp only [parse_xml_annotations, List.flatMap_cons] at ih ⊢
    rw [fileLabels_congr hfg.2, ih]

theorem convert_congr (d : List (String × Nat)) {p q : List XMLFile}
    (h : List.Forall₂ sameXml p q) :
    convert_xml_to_yolo d p = convert_xml_to_yolo d q := by
  induction h with
  | nil => rfl
  | cons hfg _ ih =>
    simp only [convert_xml_to_yolo]
    rw [convertFile_congr d hfg.2, ih]

theorem encodeAll_congr (d : List (String × Nat))
    {P Q : List (List XMLFile)}
    (h : List.Forall₂ (List.Forall₂ sameXml) P Q) :
    encodeAll d P = encodeAll d Q := by
  induction h with
  | nil => rfl
  | cons hpq _ ih =>
    simp only [encodeAll]
    rw [convert_congr d hpq, ih]

theorem allLabels_congr {P Q : List (List XMLFile)}
    (h : List.Forall₂ (List.Forall₂ sameXml) P Q) :
    allLabels P = allLabels Q := by
  induction h with
  | nil => rfl
  | cons hpq _ ih =>
    simp only [allLabels, List.flatMap_cons] at ih ⊢
    rw [parse_labels_congr hpq, ih]

/-- C10: whether a sibling `.jpg` exists for an annotation file has no
effect on the pipeline's result — vocabulary, encoded outputs and
manifest are identical for any two inputs that agree on file names and
parsed contents and differ only in image presence (the image-path list
returned by the vocabulary scan is discarded by `main`). -/
theorem c10_image_presence_irrelevant (base_dir : String)
    (P Q : List (List XMLFile))
    (h : List.Forall₂ (List.Forall₂ sameXml) P Q) :
    mainPipeline base_dir P = mainPipeline base_dir Q := by
  have hc : classesOf P = classesOf Q := by
    unfold classesOf
    rw [allLabels_congr h]
  simp only [mainPipeline]
  rw [hc, encodeAll_congr (classesDict (classesOf Q)) h]

/-- Witness for C10: removing `fileA`'s sibling image changes nothing. -/
theorem c10_image_presence_witness :
    mainPipeline "data/archive" [[fileA]] = mainPipeline "data/archive" [[fileANoImg]] :=
  c10_image_presence_irrelevant "data/archive" [[fileA]] [[fileANoImg]]
    (List.Forall₂.cons (List.Forall₂.cons ⟨rfl, rfl⟩ List.Forall₂.nil)
      List.Forall₂.nil)

/-! ### C5: class indices are vocabulary ranks -/

theorem mainPipeline_classes (base_dir : String) (parts : List (List XMLFile)) :
    (mainPipeline base_dir parts).classes = classesOf parts := by
  by_cases hD : classesDict (classesOf parts) = [] <;>
    simp [mainPipeline, hD]

theorem mainPipeline_manifest_names (base_dir : String)
    (parts : List (List XMLFile)) (m : Manifest)
    (h : (mainPipeline base_dir parts).manifest = some m) :
    m.names = classesOf parts := by
  by_cases hD : classesDict (classesOf parts) = []
  · simp [mainPipeline, hD] at h
  · simp only [mainPipeline, hD, if_false, if_neg hD] at h
    cases hcr : (encodeAll (classesDict (classesOf parts)) parts).2 with
    | true => rw [hcr] at h; simp at h
    | false =>
      rw [hcr] at h
      simp only [if_neg Bool.false_ne_true, Option.some.injEq] at h
      rw [← h]
      rfl

theorem mainPipeline_converted (base_dir : String)
    (parts : List (List XMLFile)) (pouts : List (List FileOutcome))
    (h : (mainPipeline base_dir parts).converted = some pouts) :
    pouts = (encodeAll (classesDict (classesOf parts)) parts).1 := by
  by_cases hD : classesDict (classesOf parts) = []
  · simp [mainPipeline, hD] at h
  · simp [mainPipeline, hD] at h
    exact h.symm

/-- C5: the class index of every retained encoded line is a valid index
into the vocabulary (the manifest's `names` sequence); the vocabulary
entry at that index is the emitting object's normalized (stripped,
lowercased) label, and the index equals the lexicographic rank of that
normalized label among all distinct normalized labels collected across
all partitions; and two raw labels with equal normalized forms always
resolve to the same index. -/
theorem c5_class_index_valid_rank
    (base_dir : String) (parts : List (List XMLFile))
    (pouts : List (List FileOutcome)) (po : List FileOutcome)
    (ls : List EncodedBox) (e : EncodedBox)
    (h1 : (mainPipeline base_dir parts).converted = some pouts)
    (h2 : po ∈ pouts) (h3 : FileOutcome.written ls ∈ po) (h4 : e ∈ ls) :
    e.class_id < (mainPipeline base_dir parts).classes.length ∧
    (∃ s, ((mainPipeline base_dir parts).classes)[e.class_id]? =
        some (stripLower s) ∧
      e.class_id = lexRank (stripLower s) (mainPipeline base_dir parts).classes ∧
      ∃ f ∈ parts.flatten, ∃ t, f.tree = some t ∧
        ∃ o ∈ t.objects, o.name = some s) ∧
    (∀ m, (mainPipeline base_dir parts).manifest = some m →
      m.names = (mainPipeline base_dir parts).classes) ∧
    (∀ s1 s2 : String, stripLower s1 = stripLower s2 →
      List.lookup (stripLower s1)
          (classesDict (mainPipeline base_dir parts).classes) =
        List.lookup (stripLower s2)
          (classesDict (mainPipeline base_dir parts).classes)) := by
  rw [mainPipeline_classes]
  have hpouts := mainPipeline_converted base_dir parts pouts h1
  subst hpouts
  rcases mem_encodeAll _ _ _ h2 with ⟨p, hp, hpo⟩
  subst hpo
  rcases mem_convert_written _ _ _ h3 with ⟨f, hfp, hfw⟩
  rcases convertFile_written _ _ _ hfw with ⟨t, w, hgt, hft, htw, hth, hobjs⟩
  rcases mem_convertObjs _ _ _ _ _ _ hobjs h4 with ⟨o, hot, hoc⟩
  rcases convertObj_ok_some _ _ _ _ _ hoc with ⟨s, hos, hsne, hlk⟩
  rw [lookup_classesDict] at hlk
  by_cases hmem : stripLower s ∈ classesOf parts
  · rw [if_pos hmem] at hlk
    have hidx : List.indexOf (stripLower s) (classesOf parts) = e.class_id :=
      Option.some.inj hlk
    have hlt : e.class_id < (classesOf parts).length := by
      rw [← hidx]
      exact List.indexOf_lt_length.mpr hmem
    refine ⟨hlt, ⟨s, ?_, ?_, ?_⟩, ?_, ?_⟩
    · rw [← hidx]
      have hlt0 : List.indexOf (stripLower s) (classesOf parts) <
          (classesOf parts).length :=
        List.indexOf_lt_length.mpr hmem
      rw [List.getElem?_eq_getElem hlt0]
      have hget0 := List.indexOf_get hlt0
      rw [List.get_eq_getElem] at hget0
      rw [hget0]
    · rw [← hidx]
      exact indexOf_sorted_eq_lexRank (classesOf parts)
        (classesOf_sorted parts) (classesOf_nodup parts) (stripLower s) hmem
    · exact ⟨f, List.mem_flatten.mpr ⟨p, hp, hfp⟩, t, hft, o, hot, hos⟩
    · intro m hm
      exact mainPipeline_manifest_names base_dir parts m hm
    · intro s1 s2 hs
      rw [hs]
  · rw [if_neg hmem] at hlk
    exact absurd hlk (by simp)

/-- Witness for C5: the single line of the Scenario A run. -/
theorem c5_class_index_witness :
    (encodeObjBox 0 100 200 10 20 50 80).class_id <
      (mainPipeline "data/archive" [[fileA]]).classes.length ∧
    (∃ s, ((mainPipeline "data/archive" [[fileA]]).classes)[
        (encodeObjBox 0 100 200 10 20 50 80).class_id]? = some (stripLower s) ∧
      (encodeObjBox 0 100 200 10 20 50 80).class_id =
        lexRank (stripLower s) (mainPipeline "data/archive" [[fileA]]).classes ∧
      ∃ f ∈ ([[fileA]] : List (List XMLFile)).flatten, ∃ t, f.tree = some t ∧
        ∃ o ∈ t.objects, o.name = some s) ∧
    (∀ m, (mainPipeline "data/archive" [[fileA]]).manifest = some m →
      m.names = (mainPipeline "data/archive" [[fileA]]).classes) ∧
    (∀ s1 s2 : String, stripLower s1 = stripLower s2 →
      List.lookup (stripLower s1)
          (classesDict (mainPipeline "data/archive" [[fileA]]).classes) =
        List.lookup (stripLower s2)
          (classesDict (mainPipeline "data/archive" [[fileA]]).classes)) :=
  c5_class_index_valid_rank "data/archive" [[fileA]]
    [[FileOutcome.written [encodeObjBox 0 100 200 10 20 50 80]]]
    [FileOutcome.written [encodeObjBox 0 100 200 10 20 50 80]]
    [encodeObjBox 0 100 200 10 20 50 80]
    (encodeObjBox 0 100 200 10 20 50 80)
    rfl (List.mem_singleton.mpr rfl) (List.mem_singleton.mpr rfl)
    (List.mem_singleton.mpr rfl)
